import Mathlib

/-
  Verification of the EUPS ProductStack (src/python/eups/stack/ProductStack.py)
  against its natural-language specification.

  Shallow embedding conventions:
  * Python dicts are association lists (`List (String × α)`) with
    update-in-place-or-append semantics (`setA`), preserving one entry per key.
  * Stateful methods are functions `Sys → Except (PyError × Sys) (α × Sys)`-style;
    a raised exception is `.error (e, s)` where `s` is the state at raise time
    (Python exceptions do not roll back prior mutations).
  * The filesystem is explicit: files with contents and modification times,
    a monotone clock stamping writes, the set of held advisory locks, and a
    set of paths whose `open(file, "w")` raises IOError (modelling write/
    serialization failure).
  * `ProductFamily`, `eups.lock` and `Database` are not under src/; they are
    modelled from the spec (section 6, "Consumed interface") as noted on each
    definition.
-/

namespace Eups

/-- Python dict assignment `d[k] = v` on an association list: replace the
value at the first occurrence of the key, else append a new entry. -/
def setA {α : Type} : List (String × α) → String → α → List (String × α)
  | [], k, v => [(k, v)]
  | (k', v') :: t, k, v =>
      if k' = k then (k, v) :: t else (k', v') :: setA t k v

/-- Python dict lookup `d[k]` (as an Option; callers model KeyError). -/
def lookupA {α : Type} : List (String × α) → String → Option α
  | [], _ => none
  | (k', v') :: t, k => if k' = k then some v' else lookupA t k

/-- Python dict deletion `del d[k]` (first occurrence). -/
def eraseA {α : Type} : List (String × α) → String → List (String × α)
  | [], _ => []
  | (k', v') :: t, k => if k' = k then t else (k', v') :: eraseA t k

/-- Python `d.keys()`. -/
def keysA {α : Type} (l : List (String × α)) : List String := l.map Prod.fst

/-- Per-version data held by a ProductFamily: install directory, table file
path and the (optionally already parsed) table, modelled opaquely. -/
structure VersionData where
  dir : String
  tablefile : String
  table : Option String
  deriving DecidableEq

/-- Modelled from the spec: the produced Product record — name, version,
flavor, install directory, table-file path, parsed table, owning database
path, list of tags; `getProduct` additionally annotates a back-reference to
the stack, modelled by the flag `prodStackSet`. -/
structure ProductRecord where
  name : String
  version : String
  flavor : String
  dir : String
  tablefile : String
  table : Option String
  tags : List String
  db : Option String
  prodStackSet : Bool
  deriving DecidableEq

/-- Modelled from the spec: ProductFamily, the per-(flavor,name) collection of
versions and tag assignments (ProductFamily.py is not under src/). -/
structure ProductFamily where
  name : String
  versions : List (String × VersionData)
  tags : List (String × String)
  deriving DecidableEq

/-- Modelled from the spec: `addVersion` adds or overwrites a version entry. -/
def ProductFamily.addVersion (f : ProductFamily) (version dir tablefile : String)
    (table : Option String) : ProductFamily :=
  { f with versions := setA f.versions version ⟨dir, tablefile, table⟩ }

/-- Modelled from the spec: `hasVersion`. -/
def ProductFamily.hasVersion (f : ProductFamily) (v : String) : Bool :=
  (lookupA f.versions v).isSome

/-- Modelled from the spec: `getVersions` lists the version strings. -/
def ProductFamily.getVersions (f : ProductFamily) : List String :=
  keysA f.versions

/-- Modelled from the spec: `removeVersion` returns whether the version was
present, removing it when it was. -/
def ProductFamily.removeVersion (f : ProductFamily) (v : String) :
    Bool × ProductFamily :=
  if f.hasVersion v then (true, { f with versions := eraseA f.versions v })
  else (false, f)

/-- Modelled from the spec: `assignTag` — within one (flavor, product) a tag
maps to at most one version, last assignment wins. -/
def ProductFamily.assignTag (f : ProductFamily) (tag version : String) :
    ProductFamily :=
  { f with tags := setA f.tags tag version }

/-- Modelled from the spec: `getProduct(version)` returns the family's
product record for a stored version (a missing version is a KeyError in the
source, modelled as `none`). -/
def ProductFamily.getProduct (f : ProductFamily) (v : String) :
    Option ProductRecord :=
  (lookupA f.versions v).map fun vd =>
    { name := f.name, version := v, flavor := "", dir := vd.dir,
      tablefile := vd.tablefile, table := vd.table,
      tags := keysA (f.tags.filter fun p => p.2 = v),
      db := none, prodStackSet := false }

/-- Python exceptions raised by the modelled code. `outOfSync` models the
RuntimeError of `save` whose message lists the out-of-sync cache files. -/
inductive PyError where
  | keyError (k : String)
  | nameError (n : String)
  | unboundLocal (n : String)
  | ioError (path : String)
  | osError (path : String)
  | runtimeError (msg : String)
  | outOfSync (files : List String)
  | productNotFound (name version flavor : String)
  | productNotFoundAny (name version : String) (flavors : List String)
      (dbpath : String)
  | underSpecified (name version flavor : String)
  | pickleError (path : String)
  deriving DecidableEq

/-- Contents of a file in the modelled filesystem: a pickled per-flavor
product table, or a pickled per-(flavor,tag) user-tag table. -/
inductive FileContent where
  | prod (data : List (String × ProductFamily))
  | tag (data : List (String × String))
  deriving DecidableEq

/-- A file on disk: its (deserialized) content and its modification time. -/
structure FSFile where
  content : FileContent
  mtime : Nat
  deriving DecidableEq

/-- The modelled filesystem: files, existing directories, the advisory locks
currently held (lock-file path, holder), a monotone clock stamping writes,
and the paths for which `open(path, "w")` raises IOError. -/
structure FS where
  files : List (String × FSFile)
  dirs : List String
  locks : List (String × String)
  clock : Nat
  failWrites : List String
  deriving DecidableEq

/-- Model of `os.stat(path).st_mtime`; `none` models OSError (file absent). -/
def statMtime (fs : FS) (path : String) : Option Nat :=
  (lookupA fs.files path).map FSFile.mtime

/-- The deserialized content of a file, when present. -/
def fileContent (fs : FS) (path : String) : Option FileContent :=
  (lookupA fs.files path).map FSFile.content

/-- Model of `open(path, "w")` plus a pickle dump: writes the content and stamps the
file with the current clock. (Callers check `failWrites` first.) -/
def writeFile (fs : FS) (path : String) (c : FileContent) : FS :=
  { fs with files := setA fs.files path ⟨c, fs.clock⟩, clock := fs.clock + 1 }

/-- Modelled from the spec: `eups.lock.lock(path, who)` records the advisory
lock (eups/lock.py is not under src/). -/
def lockF (fs : FS) (path holder : String) : FS :=
  { fs with locks := (path, holder) :: fs.locks }

/-- Removes the first occurrence of a pair from a list. -/
def removePair : List (String × String) → String × String →
    List (String × String)
  | [], _ => []
  | p :: t, q => if p = q then t else p :: removePair t q

/-- Modelled from the spec: `eups.lock.unlock(path, who)` releases the
advisory lock. -/
def unlockF (fs : FS) (path holder : String) : FS :=
  { fs with locks := removePair fs.locks (path, holder) }

/-- Model of `os.getlogin()`, a fixed login name in the model. -/
def who : String := "eupsuser"

/-- The persistence format version (module constant `persistVersionName`). -/
def persistVersionName : String := "1.2.0"

/-- Source `dotre.sub('_', s)`: replace every dot with an underscore. -/
def dotSub (s : String) : String :=
  String.mk (s.data.map fun c => if c = '.' then '_' else c)

/-- Source `persistFileExt = "pickleDB%s" % dotre.sub('_', persistVersionName)`. -/
def persistFileExt : String := "pickleDB" ++ dotSub persistVersionName

/-- Source `userTagFileExt = "pickleTag%s" % dotre.sub('_', persistVersionName)`. -/
def userTagFileExt : String := "pickleTag" ++ dotSub persistVersionName

/-- The reserved user-tag name marker (module constant for user tags). -/
def userPre : String := "user."

/-- Model of `tag.startswith(userPrefix)` over the character lists. -/
def startsWithUserPre (tag : String) : Bool :=
  userPre.data.isPrefixOf tag.data

/-- Source `persistFilename(flavor) = "%s.%s" % (flavor, persistFileExt)`. -/
def persistFilename (flavor : String) : String :=
  flavor ++ "." ++ persistFileExt

/-- Model of `os.path.join` for one directory and one relative component. -/
def pathJoin (d f : String) : String := d ++ "/" ++ f

/-- The in-memory ProductStack state (the fields set by `__init__`). -/
structure ProductStack where
  dbpath : String
  lookup : List (String × List (String × ProductFamily))
  autosave : Bool
  updated : List String
  modtimes : List (String × Nat)
  persistDir : Option String
  usertags : List (String × List (String × List (String × String)))
  userTagDir : Option String
  deriving DecidableEq

/-- The complete mutable state: the stack object and the filesystem. -/
structure Sys where
  stack : ProductStack
  fs : FS
  deriving DecidableEq

/-- Decidable equality on modelled results, for evaluating the operations on
concrete inputs. -/
instance {ε α : Type} [DecidableEq ε] [DecidableEq α] :
    DecidableEq (Except ε α) := fun a b =>
  match a, b with
  | .ok x, .ok y =>
      if h : x = y then .isTrue (by rw [h]) else .isFalse (by simp [h])
  | .error x, .error y =>
      if h : x = y then .isTrue (by rw [h]) else .isFalse (by simp [h])
  | .ok _, .error _ => .isFalse (by simp)
  | .error _, .ok _ => .isFalse (by simp)

/-- Python truthiness for an optional string (None and "" are falsy). -/
def truthy : Option String → Option String
  | some s => if s = "" then none else some s
  | none => none

/-- Source `_persistDir`: the explicit directory if truthy, else the configured
persist directory if truthy, else the database path. -/
def _persistDir (st : ProductStack) (dirArg : Option String) : String :=
  match truthy dirArg with
  | some d => d
  | none =>
      match truthy st.persistDir with
      | some d => d
      | none => st.dbpath

/-- Source `_persistPath(flavor, dir)`. -/
def _persistPath (st : ProductStack) (flavor : String)
    (dirArg : Option String) : String :=
  pathJoin (_persistDir st dirArg) (persistFilename flavor)

/-- Source `_lockfilepath(file) = file + ".lock"`. -/
def lockfilepath (file : String) : String := file ++ ".lock"

/-- Source `getFlavors()`. -/
def getFlavors (st : ProductStack) : List String := keysA st.lookup

/-- Source `self.lookup[flavor] = {}` when the flavor key is absent. -/
def ensureFlavor (lk : List (String × List (String × ProductFamily)))
    (flavor : String) : List (String × List (String × ProductFamily)) :=
  if (lookupA lk flavor).isSome then lk else setA lk flavor []

/-- Source `_lol2l`: concatenate a list of lists (the `tolist` argument is unused at
the call sites modelled here). -/
def _lol2l (lol : List (List String)) : List String :=
  lol.foldl (fun out l => out ++ l) []

/-- The body of `_uniquify`'s loop, with the iteration count fixed up front
(`for i in xrange(len(lis))`): pop the front element and re-append it only
when it no longer occurs in the rest of the list. -/
def uniqLoop : Nat → List String → List String
  | 0, l => l
  | _ + 1, [] => []
  | k + 1, h :: t => uniqLoop k (if h ∈ t then t else t ++ [h])

/-- Source `_uniquify`: drop duplicates (keeping last occurrences) then `lis.sort()`. -/
def _uniquify (l : List String) : List String :=
  List.insertionSort (· ≤ ·) (uniqLoop l.length l)

/-- Source `getProductNames()` with no flavor: union of names across flavors,
uniquified and sorted. -/
def getProductNamesAll (st : ProductStack) : List String :=
  _uniquify (_lol2l (st.lookup.map fun p => keysA p.2))

/-- Source `getProductNames(flavor)`: `self.lookup[flavor].keys()` — the dict access
raises KeyError when the flavor is absent (there is no try/except here). -/
def getProductNamesFor (st : ProductStack) (flavor : String) :
    Except PyError (List String) :=
  match lookupA st.lookup flavor with
  | none => .error (.keyError flavor)
  | some m => .ok (keysA m)

/-- Source `hasProduct` restricted to one flavor (the try/except KeyError body). -/
def hasProductIn (st : ProductStack) (name flavor : String)
    (version : Option String) : Bool :=
  match lookupA st.lookup flavor with
  | none => false
  | some m =>
      match lookupA m name with
      | none => false
      | some pf =>
          match version with
          | none => true
          | some v => pf.hasVersion v

/-- Source `hasProduct(name, flavor, version)`; a `none` flavor searches every
flavor (OR semantics), a `none` version means any version. -/
def hasProduct (st : ProductStack) (name : String)
    (flavor version : Option String) : Bool :=
  match flavor with
  | some f => hasProductIn st name f version
  | none => (keysA st.lookup).any fun f => hasProductIn st name f version

/-- Source `getProduct(name, version, flavor)`: fully-specified lookup; any KeyError
in the chain is caught and re-raised as `ProductNotFound(name, version,
flavor)`; on success the record is annotated with the flavor, the stack's
database path and the back-reference to the stack. -/
def getProduct (st : ProductStack) (name version flavor : String) :
    Except PyError ProductRecord :=
  match lookupA st.lookup flavor with
  | none => .error (.productNotFound name version flavor)
  | some m =>
      match lookupA m name with
      | none => .error (.productNotFound name version flavor)
      | some pf =>
          match pf.getProduct version with
          | none => .error (.productNotFound name version flavor)
          | some out =>
              .ok { out with flavor := flavor, db := some st.dbpath,
                             prodStackSet := true }

/-- Source `_flavorsUpdated(flavor)` for a single flavor string. -/
def _flavorsUpdatedOne (st : ProductStack) (flavor : String) : ProductStack :=
  if flavor ∈ st.updated then st
  else { st with updated := st.updated ++ [flavor] }

/-- Source `_flavorsUpdated(flavors)` for a list: extend with the ones not already
marked (membership tested against the pre-extend list, as `filter` in the
source is evaluated before `extend`). -/
def _flavorsUpdatedList (st : ProductStack) (flavors : List String) :
    ProductStack :=
  { st with updated :=
      st.updated ++ flavors.filter fun x => x ∉ st.updated }

/-- Source `persist(flavor, file)`.  With `file = None` the source computes
`os.path.join(dir, persistFilename(flavor))` where `persistFilename` is a
class attribute referenced as a bare (unbound) module name: NameError before
any mutation.  Otherwise: ensure the flavor key, acquire the lock, open the
file for writing (IOError propagates with the lock still held — there is no
try/finally), dump, record the new mtime in the ledger, release the lock. -/
def persist (flavor : String) (fileArg : Option String) (sys : Sys) :
    Except (PyError × Sys) Sys :=
  match fileArg with
  | none => .error (.nameError "persistFilename", sys)
  | some file =>
      let st := { sys.stack with lookup := ensureFlavor sys.stack.lookup flavor }
      let flavorData := (lookupA st.lookup flavor).getD []
      let fs1 := lockF sys.fs (lockfilepath file) who
      if file ∈ fs1.failWrites then
        .error (.ioError file, { stack := st, fs := fs1 })
      else
        let fs2 := writeFile fs1 file (.prod flavorData)
        let mt := (statMtime fs2 file).getD 0
        let st2 := { st with modtimes := setA st.modtimes file mt }
        .ok { stack := st2, fs := unlockF fs2 (lockfilepath file) who }

/-- The state after a successful `persist` of a flavor to an explicit file:
the flavor bucket is ensured, the file holds the pickled bucket stamped with
the write clock, the ledger records that time, the clock advances, and the
lock set is restored. -/
def persistResult (flavor file : String) (sys : Sys) : Sys :=
  { stack := { sys.stack with
        lookup := ensureFlavor sys.stack.lookup flavor,
        modtimes := setA sys.stack.modtimes file sys.fs.clock },
    fs := { sys.fs with
        files := setA sys.fs.files file
          ⟨.prod ((lookupA sys.stack.lookup flavor).getD []), sys.fs.clock⟩,
        clock := sys.fs.clock + 1 } }

/-- After a successful `persist` inside `save`, the flavor is removed from
`self.updated`, but only when the `dir` argument of `save` is None. -/
def clearUpdated (dirArg : Option String) (flavor : String) (sys : Sys) :
    Sys :=
  if dirArg = none then
    { sys with stack :=
        { sys.stack with updated := sys.stack.updated.filter fun x => x ≠ flavor } }
  else sys

/-- The flavor loop of `save`: skip and collect a flavor's file when the
ledger holds an older time than the file's current mtime, else persist it;
`os.stat` is only evaluated when the ledger has the key. -/
def saveLoop (dirArg : Option String) :
    List String → List String → Sys → Except (PyError × Sys) (List String × Sys)
  | [], acc, sys => .ok (acc, sys)
  | flavor :: rest, acc, sys =>
      let file := _persistPath sys.stack flavor dirArg
      match lookupA sys.stack.modtimes file with
      | some t =>
          match statMtime sys.fs file with
          | none => .error (.osError file, sys)
          | some m =>
              if t < m then
                saveLoop dirArg rest (acc ++ [file]) sys
              else
                match persist flavor (some file) sys with
                | .error e => .error e
                | .ok sys1 => saveLoop dirArg rest acc (clearUpdated dirArg flavor sys1)
      | none =>
          match persist flavor (some file) sys with
          | .error e => .error e
          | .ok sys1 => saveLoop dirArg rest acc (clearUpdated dirArg flavor sys1)

/-- Source `save(flavors, dir)` for an explicit flavor list: run the loop, then
raise the consistency RuntimeError naming the out-of-sync files when any
flavor was skipped (the flavors that did save stay saved). -/
def saveFlavors (flavors : List String) (dirArg : Option String) (sys : Sys) :
    Except (PyError × Sys) Sys :=
  match saveLoop dirArg flavors [] sys with
  | .error e => .error e
  | .ok (oos, sys1) =>
      if oos = [] then .ok sys1 else .error (.outOfSync oos, sys1)

/-- Source `save(flavors=None, ...)`: nothing to do when no flavor is dirty, else
recurse on `self.updated` (the recursive call passes no directory). -/
def save (flavors : Option (List String)) (dirArg : Option String)
    (sys : Sys) : Except (PyError × Sys) Sys :=
  match flavors with
  | none =>
      if sys.stack.updated = [] then .ok sys
      else saveFlavors sys.stack.updated none sys
  | some l => saveFlavors l dirArg sys

/-- The lookup-table update performed by `addProduct` for a fully-specified
product: ensure the flavor bucket, create the (flavor, name) family when
absent, add/overwrite the version entry, and re-apply the record's tags. -/
def addProductLookup (p : ProductRecord)
    (lk0 : List (String × List (String × ProductFamily))) :
    List (String × List (String × ProductFamily)) :=
  let lk := ensureFlavor lk0 p.flavor
  let fmap := (lookupA lk p.flavor).getD []
  let fmap1 :=
    if (lookupA fmap p.name).isSome then fmap
    else setA fmap p.name { name := p.name, versions := [], tags := [] }
  let fam := (lookupA fmap1 p.name).getD { name := p.name, versions := [], tags := [] }
  let fam1 := fam.addVersion p.version p.dir p.tablefile p.table
  let fam2 := p.tags.foldl (fun f t => f.assignTag t p.version) fam1
  setA lk p.flavor (setA fmap1 p.name fam2)

/-- Source `addProduct(product)`: reject an under-specified product before any
mutation; otherwise create the family if needed, add/overwrite the version,
re-apply the record's tags, mark the flavor dirty, and save it when autosave
is on. -/
def addProduct (p : ProductRecord) (sys : Sys) : Except (PyError × Sys) Sys :=
  if p.name = "" ∨ p.version = "" ∨ p.flavor = "" then
    .error (.underSpecified p.name p.version p.flavor, sys)
  else
    let st := _flavorsUpdatedOne
      { sys.stack with lookup := addProductLookup p sys.stack.lookup } p.flavor
    let sys1 : Sys := { sys with stack := st }
    if st.autosave then saveFlavors [p.flavor] none sys1 else .ok sys1

/-- Source `removeProduct(name, flavor, version)`: a KeyError on the lookup chain
returns false; a removed version may drop the whole family; on success the
flavor is marked dirty and saved when autosave is on. -/
def removeProduct (name flavor version : String) (sys : Sys) :
    Except (PyError × Sys) (Bool × Sys) :=
  match lookupA sys.stack.lookup flavor with
  | none => .ok (false, sys)
  | some fmap =>
      match lookupA fmap name with
      | none => .ok (false, sys)
      | some fam =>
          match fam.removeVersion version with
          | (false, _) => .ok (false, sys)
          | (true, fam1) =>
              let fmap1 :=
                if fam1.getVersions = [] then eraseA fmap name
                else setA fmap name fam1
              let st := _flavorsUpdatedOne
                { sys.stack with lookup := setA sys.stack.lookup flavor fmap1 } flavor
              let sys1 : Sys := { sys with stack := st }
              if st.autosave then
                match saveFlavors [flavor] none sys1 with
                | .error e => .error e
                | .ok sys2 => .ok (true, sys2)
              else .ok (true, sys1)

/-- Source `_setUserTag(flavor, tag, product, version)`: mirror a user-scoped
assignment into the usertags overlay. -/
def _setUserTag (st : ProductStack) (flavor tag product version : String) :
    ProductStack :=
  let fmap := (lookupA st.usertags flavor).getD []
  let tmap := (lookupA fmap tag).getD []
  let ut := setA st.usertags flavor (setA fmap tag (setA tmap product version))
  { st with usertags := ut }

/-- The flavor loop of `_saveTag`.  For the first flavor with a usertags
entry for the tag, the source executes `self._lock(file)` where `file` is a
local variable assigned only on the following line: UnboundLocalError is
raised before any file is written. -/
def _saveTagLoop (tag : String) : List String → Sys → Except (PyError × Sys) Sys
  | [], sys => .ok sys
  | flavor :: rest, sys =>
      match (lookupA sys.stack.usertags flavor).bind (fun m => lookupA m tag) with
      | some _ => .error (.unboundLocal "file", sys)
      | none => _saveTagLoop tag rest sys

/-- Source `_saveTag(tag, flavors)`: a no-op unless a user-tag directory is
configured (truthy). -/
def _saveTag (tag : String) (flavors : List String) (sys : Sys) :
    Except (PyError × Sys) Sys :=
  match truthy sys.stack.userTagDir with
  | none => .ok sys
  | some _ => _saveTagLoop tag flavors sys

/-- The flavor loop of `assignTag`: assign within each flavor that has the
product (KeyError is passed over), mirroring user-scoped tags into the
overlay; tracks whether any flavor matched. -/
def assignTagLoop (tag product version : String) :
    List String → Bool → ProductStack → Bool × ProductStack
  | [], notfound, st => (notfound, st)
  | flavor :: rest, notfound, st =>
      match lookupA st.lookup flavor with
      | none => assignTagLoop tag product version rest notfound st
      | some fmap =>
          match lookupA fmap product with
          | none => assignTagLoop tag product version rest notfound st
          | some fam =>
              let lk1 := setA st.lookup flavor
                (setA fmap product (fam.assignTag tag version))
              let st1 := { st with lookup := lk1 }
              let st2 :=
                if startsWithUserPre tag then
                  _setUserTag st1 flavor tag product version
                else st1
              assignTagLoop tag product version rest false st2

/-- Source `assignTag(tag, product, version, flavors)`: defaulting flavors to all
known ones; ProductNotFound when no flavor contained the product; then mark
the flavors dirty, and under autosave route persistence by tag scope: the
user-tag file for user tags, the global snapshots otherwise. -/
def assignTag (tag product version : String) (flavorsArg : Option (List String))
    (sys : Sys) : Except (PyError × Sys) Sys :=
  let flavors :=
    match flavorsArg with
    | none => keysA sys.stack.lookup
    | some l => l
  match assignTagLoop tag product version flavors true sys.stack with
  | (notfound, st1) =>
      if notfound then
        .error (.productNotFoundAny product version flavors sys.stack.dbpath,
                { sys with stack := st1 })
      else
        let st2 := _flavorsUpdatedList st1 flavors
        let sys1 : Sys := { sys with stack := st2 }
        if st2.autosave then
          if startsWithUserPre tag then _saveTag tag flavors sys1
          else saveFlavors flavors none sys1
        else .ok sys1

/-- Source `loadTableFor(productName, version, flavor, table)`: the body reads
`self.lookup[flavor][name]` where `name` is not a parameter and not any
module-level name — NameError; and when the flavor subscript raises KeyError
first, the handler's `raise ProductNotFound(name, version, flavor)` evaluates
the same unbound `name`.  Either way the operation raises NameError with the
state unchanged. -/
def loadTableFor (productName version flavor : String) (table : Option String)
    (sys : Sys) : Except (PyError × Sys) Sys :=
  match lookupA sys.stack.lookup flavor with
  | some _ => .error (.nameError "name", sys)
  | none => .error (.nameError "name", sys)

/-- Modelled from the spec: the consumed authoritative Database interface —
`findProductNames`, `findProducts`, `isNewerThan` (eups/db is not under
src/). -/
structure Database where
  findProductNames : List String
  findProducts : String → List ProductRecord
  isNewerThan : Nat → Bool

/-- Source `cacheIsUpToDate(flavor)`: false when the cache file is absent, else the
database must not be newer than the file's mtime.  (`db` stands for
`Database(self.dbpath)`.) -/
def cacheIsUpToDate (db : Database) (flavor : String) (sys : Sys) : Bool :=
  match statMtime sys.fs (_persistPath sys.stack flavor none) with
  | none => false
  | some m => ! db.isNewerThan m

/-- The flavor loop of `reload`: lock, record the file's mtime in the ledger
(OSError propagates with the lock held), unpickle (a non-product pickle is a
load failure), unlock, then replace the flavor's table wholesale. -/
def reloadLoop (dir : String) : List String → Sys → Except (PyError × Sys) Sys
  | [], sys => .ok sys
  | flavor :: rest, sys =>
      let file := _persistPath sys.stack flavor (some dir)
      let fs1 := lockF sys.fs (lockfilepath file) who
      match statMtime fs1 file with
      | none => .error (.osError file, { sys with fs := fs1 })
      | some m =>
          let st1 := { sys.stack with modtimes := setA sys.stack.modtimes file m }
          match fileContent fs1 file with
          | some (.prod data) =>
              reloadLoop dir rest
                { stack := { st1 with lookup := setA st1.lookup flavor data },
                  fs := unlockF fs1 (lockfilepath file) who }
          | _ => .error (.pickleError file, { stack := st1, fs := fs1 })

/-- Source `reload(flavors, ...)` for an explicit flavor list (the default-flavors
branch via `findCachedFlavors` is not exercised by the modelled callers; the
user-tag directory resolution has no further effect in the source — the
"update with user tags" section is empty). -/
def reload (flavors : List String) (prodPersistDirArg : Option String)
    (sys : Sys) : Except (PyError × Sys) Sys :=
  let prodDir :=
    match prodPersistDirArg with
    | none => _persistDir sys.stack none
    | some d => d
  if prodDir = "" then
    .error (.runtimeError "a cache directory is needed", sys)
  else if prodDir ∉ sys.fs.dirs then
    .error (.runtimeError "not an existing directory", sys)
  else reloadLoop prodDir flavors sys

/-- The nested product loop of `refreshFromDatabase`, flattened:
`addProduct` for every product of every declared name. -/
def addProductsFold : List ProductRecord → Sys → Except (PyError × Sys) Sys
  | [], sys => .ok sys
  | p :: rest, sys =>
      match addProduct p sys with
      | .error e => .error e
      | .ok sys1 => addProductsFold rest sys1

/-- Source `refreshFromDatabase()`: forget the lookup table, then add every product
found in the database. -/
def refreshFromDatabase (db : Database) (sys : Sys) :
    Except (PyError × Sys) Sys :=
  addProductsFold
    (db.findProductNames.foldl (fun acc n => acc ++ db.findProducts n) [])
    { sys with stack := { sys.stack with lookup := [] } }

/-- Source `__init__`: fail fast on an empty or missing database path; with
autosave, a configured-but-missing persist or user-tag directory is an
IOError; otherwise the stack starts empty. -/
def mkProductStack (dbpath : String)
    (userTagPersistDir prodPersistDir : Option String) (autosave : Bool)
    (fs : FS) : Except PyError ProductStack :=
  if dbpath = "" then .error (.runtimeError "empty database path")
  else if dbpath ∉ fs.dirs then .error (.ioError dbpath)
  else if (match prodPersistDir with
           | some d => autosave && d ∉ fs.dirs
           | none => false) then
    .error (.ioError "persist directory not found")
  else if (match userTagPersistDir with
           | some d => autosave && d ∉ fs.dirs
           | none => false) then
    .error (.ioError "user tag directory not found")
  else
    .ok { dbpath := dbpath, lookup := [], autosave := autosave,
          updated := [], modtimes := [], persistDir := prodPersistDir,
          usertags := [], userTagDir := userTagPersistDir }

/-- Source `fromCache(dbpath, flavors, ...)`: a falsy flavors argument (None or the
empty list) raises RuntimeError before any stack is constructed; otherwise
construct, check freshness of every requested flavor, and either reload the
caches or rebuild from the database, mark the flavors dirty, and persist
when updateCache is on. -/
def fromCache (db : Database) (dbpath : String)
    (flavorsArg : Option (List String))
    (userTagPersistDir prodPersistDir : Option String)
    (updateCache autosave : Bool) (fs : FS) : Except (PyError × FS) Sys :=
  if (match flavorsArg with
      | none => true
      | some l => l = []) then
    .error (.runtimeError "at least one flavor needed as input", fs)
  else
    let flavors := flavorsArg.getD []
    match mkProductStack dbpath userTagPersistDir prodPersistDir autosave fs with
    | .error e => .error (e, fs)
    | .ok st =>
        let sys : Sys := { stack := st, fs := fs }
        if flavors.all (fun f => cacheIsUpToDate db f sys) then
          match reload flavors none sys with
          | .error (e, sys1) => .error (e, sys1.fs)
          | .ok sys1 => .ok sys1
        else
          match refreshFromDatabase db sys with
          | .error (e, sys1) => .error (e, sys1.fs)
          | .ok sys1 =>
              let sys2 : Sys :=
                { sys1 with stack := _flavorsUpdatedList sys1.stack flavors }
              if updateCache then
                match save none none sys2 with
                | .error (e, sys3) => .error (e, sys3.fs)
                | .ok sys3 => .ok sys3
              else .ok sys2

/-! Concrete fixtures used by witnesses and counterexamples. -/

/-- A one-version family for product "p". -/
def fam1 : ProductFamily :=
  { name := "p", versions := [("1.0", ⟨"/opt/p", "p.table", none⟩)], tags := [] }

/-- A one-version family for product "q". -/
def famQ : ProductFamily :=
  { name := "q", versions := [("2.0", ⟨"/opt/q", "q.table", none⟩)], tags := [] }

/-- A small stack holding product "p" 1.0 under flavor "f1", autosave off. -/
def stBase : ProductStack :=
  { dbpath := "db", lookup := [("f1", [("p", fam1)])], autosave := false,
    updated := [], modtimes := [], persistDir := none, usertags := [],
    userTagDir := none }

/-- A filesystem with just the database directory. -/
def fsBase : FS :=
  { files := [], dirs := ["db"], locks := [], clock := 0, failWrites := [] }

/-- State for the user-tag persistence scenario: autosave on, a user-tag
directory configured. -/
def sysC2 : Sys :=
  { stack := { dbpath := "db", lookup := [("f1", [("p", fam1)])],
               autosave := true, updated := [], modtimes := [],
               persistDir := none, usertags := [], userTagDir := some "ut" },
    fs := { files := [], dirs := ["db", "ut"], locks := [], clock := 0,
            failWrites := [] } }

/-- The state carried by the exception that `assignTag` raises on `sysC2`. -/
def sysC2R : Sys :=
  match assignTag "user.mine" "p" "1.0" (some ["f1"]) sysC2 with
  | .error (_, s) => s
  | .ok s => s

/-- The cache-file path of flavor "f1" for a stack with database path "db". -/
def fileC3 : String := "db/f1.pickleDB1_2_0"

/-- State for the failing-write scenario: opening the cache file for writing
raises IOError. -/
def sysC3 : Sys :=
  { stack := { dbpath := "db", lookup := [("f1", [("p", fam1)])],
               autosave := true, updated := [], modtimes := [],
               persistDir := none, usertags := [], userTagDir := none },
    fs := { files := [], dirs := ["db"], locks := [], clock := 7,
            failWrites := [fileC3] } }

/-- The state carried by the IOError that `persist` raises on `sysC3`. -/
def sysC3R : Sys :=
  match persist "f1" (some fileC3) sysC3 with
  | .error (_, s) => s
  | .ok s => s

/-- A product record to feed `addProduct`. -/
def pC4 : ProductRecord :=
  { name := "p", version := "1.0", flavor := "f1", dir := "/opt/p",
    tablefile := "p.table", table := none, tags := ["current"],
    db := none, prodStackSet := false }

/-- An empty autosaving stack over an empty filesystem with directory "db". -/
def sysC4 : Sys :=
  { stack := { dbpath := "db", lookup := [], autosave := true, updated := [],
               modtimes := [], persistDir := none, usertags := [],
               userTagDir := none },
    fs := { files := [], dirs := ["db"], locks := [], clock := 0,
            failWrites := [] } }

/-- The state produced by `addProduct pC4 sysC4`. -/
def sysC4R : Sys :=
  match addProduct pC4 sysC4 with
  | .ok s => s
  | .error (_, s) => s

/-- State for the removal scenario: one product with a single version,
autosave on. -/
def sysC7 : Sys :=
  { stack := { dbpath := "db", lookup := [("f1", [("p", fam1)])],
               autosave := true, updated := [], modtimes := [],
               persistDir := none, usertags := [], userTagDir := none },
    fs := { files := [], dirs := ["db"], locks := [], clock := 0,
            failWrites := [] } }

/-- The state produced by `removeProduct "p" "f1" "1.0" sysC7`. -/
def sysC7R : Sys :=
  match removeProduct "p" "f1" "1.0" sysC7 with
  | .ok (_, s) => s
  | .error (_, s) => s

/-- The record returned by `getProduct` on `stBase`. -/
def recC5 : ProductRecord :=
  match getProduct stBase "p" "1.0" "f1" with
  | .ok r => r
  | .error _ => pC4

/-- A stack whose flavor "f1" lists names in non-sorted table order. -/
def stC8 : ProductStack :=
  { dbpath := "db",
    lookup := [("f1", [("zz", ⟨"zz", [], []⟩), ("aa", ⟨"aa", [], []⟩)])],
    autosave := false, updated := [], modtimes := [], persistDir := none,
    usertags := [], userTagDir := none }

/-- An empty authoritative database. -/
def dbEmpty : Database :=
  { findProductNames := [], findProducts := fun _ => [],
    isNewerThan := fun _ => false }

/-- State for the multi-flavor save scenario: flavor "f1" is in sync
(ledger time equals the on-disk time) while flavor "f2" is out of sync (the
on-disk file is newer than the ledger time). -/
def sysC1 : Sys :=
  { stack := { dbpath := "db",
               lookup := [("f1", [("p", fam1)]), ("f2", [("q", famQ)])],
               autosave := true, updated := ["f1", "f2"],
               modtimes := [("db/f1.pickleDB1_2_0", 5),
                            ("db/f2.pickleDB1_2_0", 5)],
               persistDir := none, usertags := [], userTagDir := none },
    fs := { files := [("db/f1.pickleDB1_2_0", ⟨.prod [], 5⟩),
                      ("db/f2.pickleDB1_2_0", ⟨.prod [], 9⟩)],
            dirs := ["db"], locks := [], clock := 10, failWrites := [] } }

/-- Whether `save` will skip a flavor as out of sync: the ledger holds a
recorded time for its cache file that is older than the file's current
on-disk modification time. -/
def staleFlavor (sys : Sys) (dirArg : Option String) (f : String) : Bool :=
  match lookupA sys.stack.modtimes (_persistPath sys.stack f dirArg),
        statMtime sys.fs (_persistPath sys.stack f dirArg) with
  | some t, some m => decide (t < m)
  | _, _ => false

/-- Precondition under which `save` raises no stat or write error for a
flavor: its cache file exists whenever the ledger has an entry for it, and
when it will be written, writing it does not fail. -/
def saveReady (sys : Sys) (dirArg : Option String) (f : String) : Bool :=
  (match lookupA sys.stack.modtimes (_persistPath sys.stack f dirArg) with
   | some _ => (statMtime sys.fs (_persistPath sys.stack f dirArg)).isSome
   | none => true) &&
  (staleFlavor sys dirArg f ||
   !(decide (_persistPath sys.stack f dirArg ∈ sys.fs.failWrites)))

/-- Well-formedness of the lookup table as a model of nested dicts: keys are
unique at both levels and each family records its own key as its name. -/
def wfLookup (lk : List (String × List (String × ProductFamily))) : Prop :=
  (lk.map Prod.fst).Nodup ∧
  ∀ q ∈ lk, ((q.2.map Prod.fst).Nodup ∧ ∀ r ∈ q.2, r.2.name = r.1)

instance (lk : List (String × List (String × ProductFamily))) :
    Decidable (wfLookup lk) := by
  unfold wfLookup
  exact inferInstance

/-! Association-list lemmas. -/

theorem lookupA_setA_self {α : Type} (l : List (String × α)) (k : String)
    (v : α) : lookupA (setA l k v) k = some v := by
  induction l with
  | nil => simp [setA, lookupA]
  | cons p t ih =>
      obtain ⟨k', v'⟩ := p
      by_cases h : k' = k
      · simp [setA, h, lookupA]
      · simp [setA, h, lookupA, ih]

theorem lookupA_setA_ne {α : Type} (l : List (String × α)) (k k' : String)
    (v : α) (h : k ≠ k') : lookupA (setA l k v) k' = lookupA l k' := by
  induction l with
  | nil => simp [setA, lookupA, h]
  | cons p t ih =>
      obtain ⟨a, b⟩ := p
      by_cases ha : a = k
      · have ha' : a ≠ k' := fun e => h (ha ▸ e)
        simp [setA, ha, lookupA, h, ha']
      · have hk : k' ≠ k := fun e => h e.symm
        by_cases hb : a = k'
        · simp [setA, ha, lookupA, hb, hk]
        · simp [setA, ha, lookupA, hb, ih]

theorem lookupA_mem {α : Type} {l : List (String × α)} {k : String} {v : α}
    (h : lookupA l k = some v) : (k, v) ∈ l := by
  induction l with
  | nil => simp [lookupA] at h
  | cons p t ih =>
      obtain ⟨a, b⟩ := p
      by_cases ha : a = k
      · subst ha
        simp [lookupA] at h
        simp [h]
      · simp [lookupA, ha] at h
        exact List.mem_cons_of_mem _ (ih h)

theorem keysA_eraseA_not_mem {α : Type} {l : List (String × α)} {k : String}
    (h : (l.map Prod.fst).Nodup) : k ∉ (eraseA l k).map Prod.fst := by
  induction l with
  | nil => simp [eraseA]
  | cons p t ih =>
      obtain ⟨a, b⟩ := p
      simp only [List.map_cons, List.nodup_cons] at h
      by_cases ha : a = k
      · subst ha
        simpa [eraseA] using h.1
      · simp only [eraseA, ha, if_false, List.map_cons, List.mem_cons]
        push_neg
        exact ⟨fun e => ha e.symm, ih h.2⟩

theorem removePair_cons_self (t : List (String × String))
    (q : String × String) : removePair (q :: t) q = t := by
  simp [removePair]

theorem lookupA_ensureFlavor_self
    (lk : List (String × List (String × ProductFamily))) (f : String) :
    lookupA (ensureFlavor lk f) f = some ((lookupA lk f).getD []) := by
  unfold ensureFlavor
  cases h : lookupA lk f with
  | none => simp [h, lookupA_setA_self]
  | some m => simp [h]

theorem lookupA_ensureFlavor_ne
    (lk : List (String × List (String × ProductFamily))) (f g : String)
    (h : f ≠ g) : lookupA (ensureFlavor lk f) g = lookupA lk g := by
  unfold ensureFlavor
  cases hf : lookupA lk f with
  | none => simp [lookupA_setA_ne _ _ _ _ h]
  | some m => simp

theorem ensureFlavor_present
    (lk : List (String × List (String × ProductFamily))) (f : String)
    (h : (lookupA lk f).isSome) : ensureFlavor lk f = lk := by
  unfold ensureFlavor
  simp [h]

/-! Characterization of `persist` on an explicit file path. -/

theorem persist_fail (flavor file : String) (sys : Sys)
    (h : file ∈ sys.fs.failWrites) :
    persist flavor (some file) sys =
      .error (.ioError file,
        { stack := { sys.stack with
              lookup := ensureFlavor sys.stack.lookup flavor },
          fs := lockF sys.fs (lockfilepath file) who }) := by
  simp [persist, lockF, h]

theorem persist_ok (flavor file : String) (sys : Sys)
    (h : file ∉ sys.fs.failWrites) :
    persist flavor (some file) sys = .ok (persistResult flavor file sys) := by
  unfold persistResult
  simp only [persist, lockF, lookupA_ensureFlavor_self]
  rw [if_neg h]
  simp [unlockF, writeFile, statMtime, lookupA_setA_self,
        removePair_cons_self, lookupA_ensureFlavor_self]

/-- C6: an `addProduct` call whose product misses a non-empty name, version,
or flavor fails with UnderSpecifiedProduct, and the error carries the caller
state unchanged — the lookup table, the dirty set and the filesystem are
exactly as before the call (the check precedes every mutation). -/
theorem C6_addProduct_underspecified (sys : Sys) (p : ProductRecord)
    (h : p.name = "" ∨ p.version = "" ∨ p.flavor = "") :
    addProduct p sys =
      .error (.underSpecified p.name p.version p.flavor, sys) := by
  unfold addProduct
  rw [if_pos h]

theorem C6_addProduct_underspecified_witness :
    (({ pC4 with name := "" } : ProductRecord).name = "" ∨
      ({ pC4 with name := "" } : ProductRecord).version = "" ∨
      ({ pC4 with name := "" } : ProductRecord).flavor = "") ∧
    addProduct { pC4 with name := "" } sysC4 =
      .error (.underSpecified ({ pC4 with name := "" } : ProductRecord).name
        ({ pC4 with name := "" } : ProductRecord).version
        ({ pC4 with name := "" } : ProductRecord).flavor, sysC4) :=
  ⟨Or.inl rfl,
   C6_addProduct_underspecified sysC4 { pC4 with name := "" } (Or.inl rfl)⟩

/-- C10: `loadTableFor` fails on every input — even a fully registered
(product, version, flavor) — because its body refers to the unbound variable
`name`; the NameError leaves the state unchanged. -/
theorem C10_loadTableFor_always_fails (sys : Sys)
    (productName version flavor : String) (table : Option String) :
    loadTableFor productName version flavor table sys =
      .error (.nameError "name", sys) := by
  unfold loadTableFor
  split <;> rfl

/-- C9: `fromCache` raises RuntimeError whenever the flavors argument is
None or the empty list; the error is raised before any ProductStack is
constructed and carries the filesystem unchanged. -/
theorem C9_fromCache_requires_flavors (db : Database) (dbpath : String)
    (flavorsArg : Option (List String)) (utd ppd : Option String)
    (updateCache autosave : Bool) (fs : FS)
    (h : flavorsArg = none ∨ flavorsArg = some []) :
    fromCache db dbpath flavorsArg utd ppd updateCache autosave fs =
      .error (.runtimeError "at least one flavor needed as input", fs) := by
  rcases h with h | h <;> subst h <;> simp [fromCache]

theorem C9_fromCache_requires_flavors_witness :
    ((some ([] : List String)) = none ∨
      (some ([] : List String)) = some ([] : List String)) ∧
    fromCache dbEmpty "db" (some []) none none true true fsBase =
      .error (.runtimeError "at least one flavor needed as input", fsBase) :=
  ⟨Or.inr rfl,
   C9_fromCache_requires_flavors dbEmpty "db" (some []) none none true true
     fsBase (Or.inr rfl)⟩

/-- C2 (code bug): assigning a user-scoped tag with autosave on and a
user-tag directory configured mirrors the assignment into the usertags
overlay and into the family's tag table, but then `_saveTag` raises
UnboundLocalError (`self._lock(file)` references the local `file` before its
assignment), so nothing is durably persisted: the filesystem is unchanged
and no per-(flavor,tag) user file exists. -/
theorem C2_user_tag_persist_crashes :
    assignTag "user.mine" "p" "1.0" (some ["f1"]) sysC2 =
      .error (.unboundLocal "file", sysC2R) ∧
    sysC2R.fs = sysC2.fs ∧
    lookupA sysC2R.stack.usertags "f1" =
      some [("user.mine", [("p", "1.0")])] ∧
    fileContent sysC2R.fs (pathJoin "ut" ("f1_user.mine." ++ userTagFileExt)) =
      none ∧
    (∃ fmap fam, lookupA sysC2R.stack.lookup "f1" = some fmap ∧
      lookupA fmap "p" = some fam ∧
      lookupA fam.tags "user.mine" = some "1.0") := by
  refine ⟨by decide, by decide, by decide, by decide, ?_⟩
  exact ⟨[("p", fam1.assignTag "user.mine" "1.0")],
         fam1.assignTag "user.mine" "1.0", by decide, by decide, by decide⟩

/-- C3 counterexample: one execution path of `persist` — the write failing
after lock acquisition — ends with the advisory lock still held, refuting
guaranteed release on every path. -/
theorem C3_lock_not_released_on_failure :
    persist "f1" (some fileC3) sysC3 = .error (.ioError fileC3, sysC3R) ∧
    (lockfilepath fileC3, who) ∈ sysC3R.fs.locks ∧
    sysC3R.fs.locks ≠ sysC3.fs.locks := by
  refine ⟨by decide, by decide, by decide⟩

/-- C3 amended: the advisory lock taken on the target path's ".lock" file is
released by the end of `persist` on the successful path (the lock set is
restored); when the file open/write fails, the IOError propagates with the
lock still held — there is no try/finally, so release is guaranteed only on
success. -/
theorem C3_persist_lock_scoping (flavor file : String) (sys : Sys) :
    (file ∉ sys.fs.failWrites →
      ∃ sysR, persist flavor (some file) sys = .ok sysR ∧
        sysR.fs.locks = sys.fs.locks) ∧
    (file ∈ sys.fs.failWrites →
      ∃ sysR, persist flavor (some file) sys = .error (.ioError file, sysR) ∧
        sysR.fs.locks = (lockfilepath file, who) :: sys.fs.locks) := by
  constructor
  · intro h
    exact ⟨_, persist_ok flavor file sys h, rfl⟩
  · intro h
    exact ⟨_, persist_fail flavor file sys h, rfl⟩

theorem C3_persist_lock_scoping_witness :
    ("db/xx" ∉ fsBase.failWrites) ∧
    (∃ sysR, persist "f1" (some "db/xx") (Sys.mk stBase fsBase) = .ok sysR ∧
      sysR.fs.locks = (Sys.mk stBase fsBase).fs.locks) :=
  ⟨by decide,
   (C3_persist_lock_scoping "f1" "db/xx" (Sys.mk stBase fsBase)).1 (by decide)⟩

/-- C5: `getProduct` fails with `ProductNotFound(name, version, flavor)`
exactly when no entry matches all three parameters, and on success returns
the family's product record annotated with the requested flavor, the
stack's database path, and the back-reference to the stack. -/
theorem C5_getProduct_spec (st : ProductStack) (name version flavor : String) :
    (getProduct st name version flavor =
        .error (.productNotFound name version flavor) ↔
      hasProduct st name (some flavor) (some version) = false) ∧
    (∀ rec, getProduct st name version flavor = .ok rec →
      rec.flavor = flavor ∧ rec.db = some st.dbpath ∧ rec.prodStackSet = true ∧
      ∃ fmap pf out, lookupA st.lookup flavor = some fmap ∧
        lookupA fmap name = some pf ∧ pf.getProduct version = some out ∧
        rec = { out with flavor := flavor, db := some st.dbpath, prodStackSet := true }) := by
  constructor
  · unfold getProduct hasProduct hasProductIn
    cases h1 : lookupA st.lookup flavor with
    | none => simp [h1]
    | some fmap =>
        cases h2 : lookupA fmap name with
        | none => simp [h1, h2]
        | some pf =>
            cases h3 : lookupA pf.versions version with
            | none =>
                simp [h1, h2, h3, ProductFamily.getProduct,
                      ProductFamily.hasVersion]
            | some vd =>
                simp [h1, h2, h3, ProductFamily.getProduct,
                      ProductFamily.hasVersion]
  · intro rec h
    unfold getProduct at h
    cases h1 : lookupA st.lookup flavor with
    | none => simp [h1] at h
    | some fmap =>
        cases h2 : lookupA fmap name with
        | none => simp [h1, h2] at h
        | some pf =>
            cases h3 : pf.getProduct version with
            | none => simp [h1, h2, h3] at h
            | some out =>
                simp only [h1, h2, h3] at h
                injection h with h4
                subst h4
                exact ⟨rfl, rfl, rfl, fmap, pf, out, rfl, h2, h3, rfl⟩

theorem C5_getProduct_spec_witness :
    getProduct stBase "p" "1.0" "f1" = .ok recC5 ∧
    (recC5.flavor = "f1" ∧ recC5.db = some stBase.dbpath ∧
      recC5.prodStackSet = true ∧
      ∃ fmap pf out, lookupA stBase.lookup "f1" = some fmap ∧
        lookupA fmap "p" = some pf ∧ pf.getProduct "1.0" = some out ∧
        recC5 = { out with flavor := "f1", db := some stBase.dbpath, prodStackSet := true }) :=
  ⟨by decide,
   (C5_getProduct_spec stBase "p" "1.0" "f1").2 recC5 (by decide)⟩

/-- C8 counterexample: `getProductNames` raises a KeyError for a flavor not
present in the stack (rather than returning an empty result), and the
flavor-scoped form returns the flavor's names in table order, not sorted. -/
theorem C8_getProductNames_counterexample :
    getProductNamesFor stC8 "nosuch" = .error (.keyError "nosuch") ∧
    getProductNamesFor stC8 "f1" = .ok ["zz", "aa"] ∧
    ¬ List.Sorted (· ≤ ·) ["zz", "aa"] := by
  refine ⟨by decide, by decide, ?_⟩
  have hlt : ("aa" : String) < "zz" := by
    rw [String.lt_iff_toList_lt]
    decide
  exact fun hs =>
    absurd (List.rel_of_sorted_cons hs "aa" (by simp)) (not_le.mpr hlt)

/-! Correctness of `_uniquify`. -/

theorem uniqLoop_spec (todo : List String) :
    ∀ done : List String, done.Nodup → (∀ x ∈ done, x ∉ todo) →
    (uniqLoop todo.length (todo ++ done)).Nodup ∧
    ∀ x, x ∈ uniqLoop todo.length (todo ++ done) ↔ x ∈ todo ++ done := by
  induction todo with
  | nil =>
      intro done hnd _
      simpa [uniqLoop] using hnd
  | cons h t ih =>
      intro done hnd hdt
      simp only [List.cons_append, List.length_cons, uniqLoop, List.append_eq]
      by_cases hm : h ∈ t ++ done
      · rw [if_pos hm]
        have step := ih done hnd
          (fun x hx hxt => hdt x hx (List.mem_cons_of_mem _ hxt))
        refine ⟨step.1, fun x => ?_⟩
        rw [step.2 x]
        constructor
        · exact fun hx => List.mem_cons_of_mem _ hx
        · intro hx
          rcases List.mem_cons.mp hx with rfl | hx
          · exact hm
          · exact hx
      · rw [if_neg hm]
        have harr : t ++ done ++ [h] = t ++ (done ++ [h]) := by simp
        rw [harr]
        have hnotdone : h ∉ done := fun hx => hm (List.mem_append_right _ hx)
        have hnott : h ∉ t := fun hx => hm (List.mem_append_left _ hx)
        have hnd' : (done ++ [h]).Nodup := by
          refine List.Nodup.append hnd (List.nodup_singleton h) ?_
          intro x hx hhx
          rcases List.mem_singleton.mp hhx with rfl
          exact hnotdone hx
        have hdt' : ∀ x ∈ done ++ [h], x ∉ t := by
          intro x hx
          rcases List.mem_append.mp hx with hx | hx
          · exact fun hxt =>
              hdt x hx (List.mem_cons_of_mem _ hxt)
          · rcases List.mem_singleton.mp hx with rfl
            exact hnott
        have step := ih (done ++ [h]) hnd' hdt'
        refine ⟨step.1, fun x => ?_⟩
        rw [step.2 x]
        simp only [List.mem_append, List.mem_cons, List.mem_singleton]
        tauto

theorem _uniquify_sorted (l : List String) :
    List.Sorted (· ≤ ·) (_uniquify l) :=
  List.sorted_insertionSort _ _

theorem _uniquify_nodup (l : List String) : (_uniquify l).Nodup := by
  have h := uniqLoop_spec l [] List.nodup_nil (by simp)
  rw [List.append_nil] at h
  exact ((List.perm_insertionSort _ _).nodup_iff).mpr h.1

theorem _uniquify_mem (l : List String) (x : String) :
    x ∈ _uniquify l ↔ x ∈ l := by
  have h := uniqLoop_spec l [] List.nodup_nil (by simp)
  rw [List.append_nil] at h
  unfold _uniquify
  rw [List.mem_insertionSort]
  exact h.2 x

theorem _lol2l_eq_join (lol : List (List String)) : _lol2l lol = lol.flatten := by
  unfold _lol2l
  suffices hgen : ∀ acc, lol.foldl (fun out l => out ++ l) acc = acc ++ lol.flatten by
    simpa using hgen []
  induction lol with
  | nil => intro acc; simp
  | cons a t ih => intro acc; simp [List.foldl_cons, ih, List.flatten_cons]

/-- C8 amended: `getProductNames` with no flavor returns the unique, sorted
union of product names across all flavors; with a flavor argument it
returns that flavor's names in table order (not sorted), and raises a
KeyError for a flavor not present in the stack instead of returning an
empty result. -/
theorem C8_getProductNames_amended (st : ProductStack) (flavor : String) :
    List.Sorted (· ≤ ·) (getProductNamesAll st) ∧
    (getProductNamesAll st).Nodup ∧
    (∀ x, x ∈ getProductNamesAll st ↔ ∃ q ∈ st.lookup, x ∈ keysA q.2) ∧
    (lookupA st.lookup flavor = none →
      getProductNamesFor st flavor = .error (.keyError flavor)) ∧
    (∀ m, lookupA st.lookup flavor = some m →
      getProductNamesFor st flavor = .ok (keysA m)) := by
  refine ⟨_uniquify_sorted _, _uniquify_nodup _, ?_, ?_, ?_⟩
  · intro x
    unfold getProductNamesAll
    rw [_uniquify_mem, _lol2l_eq_join, List.mem_flatten]
    constructor
    · rintro ⟨l, hl, hx⟩
      rcases List.mem_map.mp hl with ⟨q, hq, rfl⟩
      exact ⟨q, hq, hx⟩
    · rintro ⟨q, hq, hx⟩
      exact ⟨keysA q.2, List.mem_map.mpr ⟨q, hq, rfl⟩, hx⟩
  · intro h
    unfold getProductNamesFor
    rw [h]
  · intro m h
    unfold getProductNamesFor
    rw [h]

/-! Machinery shared by the addProduct and removeProduct claims. -/

theorem _flavorsUpdatedOne_lookup (st : ProductStack) (f : String) :
    (_flavorsUpdatedOne st f).lookup = st.lookup := by
  unfold _flavorsUpdatedOne
  split <;> rfl

theorem _flavorsUpdatedOne_autosave (st : ProductStack) (f : String) :
    (_flavorsUpdatedOne st f).autosave = st.autosave := by
  unfold _flavorsUpdatedOne
  split <;> rfl

theorem _flavorsUpdatedOne_dbpath (st : ProductStack) (f : String) :
    (_flavorsUpdatedOne st f).dbpath = st.dbpath := by
  unfold _flavorsUpdatedOne
  split <;> rfl

theorem _flavorsUpdatedOne_persistDir (st : ProductStack) (f : String) :
    (_flavorsUpdatedOne st f).persistDir = st.persistDir := by
  unfold _flavorsUpdatedOne
  split <;> rfl

theorem _flavorsUpdatedOne_mem (st : ProductStack) (f : String) :
    f ∈ (_flavorsUpdatedOne st f).updated := by
  unfold _flavorsUpdatedOne
  split
  · next hmem => exact hmem
  · simp

theorem _persistPath_congr {st st' : ProductStack} (f : String)
    (d : Option String) (h1 : st.persistDir = st'.persistDir)
    (h2 : st.dbpath = st'.dbpath) :
    _persistPath st f d = _persistPath st' f d := by
  unfold _persistPath _persistDir
  rw [h1, h2]

theorem foldl_assignTag_fields (tags : List String) (v : String) :
    ∀ f : ProductFamily,
      (tags.foldl (fun g t => g.assignTag t v) f).versions = f.versions ∧
      (tags.foldl (fun g t => g.assignTag t v) f).name = f.name := by
  induction tags with
  | nil => intro f; exact ⟨rfl, rfl⟩
  | cons a t ih =>
      intro f
      simpa [List.foldl_cons, ProductFamily.assignTag] using
        ih (f.assignTag a v)

theorem addProductLookup_spec (p : ProductRecord)
    (lk0 : List (String × List (String × ProductFamily)))
    (hwf : wfLookup lk0) :
    ∃ fmap1 fam2,
      addProductLookup p lk0 =
        setA (ensureFlavor lk0 p.flavor) p.flavor (setA fmap1 p.name fam2) ∧
      lookupA fam2.versions p.version = some ⟨p.dir, p.tablefile, p.table⟩ ∧
      fam2.name = p.name := by
  unfold addProductLookup
  refine ⟨_, _, rfl, ?_, ?_⟩
  · rw [(foldl_assignTag_fields p.tags p.version _).1]
    exact lookupA_setA_self _ _ _
  · rw [(foldl_assignTag_fields p.tags p.version _).2]
    show (ProductFamily.addVersion _ _ _ _ _).name = p.name
    unfold ProductFamily.addVersion
    cases hfl : lookupA lk0 p.flavor with
    | none =>
        rw [show ensureFlavor lk0 p.flavor = setA lk0 p.flavor [] by
              unfold ensureFlavor; rw [hfl]; rfl]
        simp [lookupA_setA_self, lookupA]
    | some m =>
        rw [ensureFlavor_present lk0 p.flavor (by rw [hfl]; rfl), hfl]
        cases hnm : lookupA m p.name with
        | none => simp [hnm, lookupA_setA_self]
        | some g =>
            have hg : g.name = p.name :=
              (hwf.2 (p.flavor, m) (lookupA_mem hfl)).2 (p.name, g)
                (lookupA_mem hnm)
            simp [hnm, hg]

theorem saveFlavors_single_ok {f : String} {sys sysR : Sys}
    (h : saveFlavors [f] none sys = .ok sysR) :
    sysR.stack.lookup = ensureFlavor sys.stack.lookup f ∧
    sysR.stack.updated = sys.stack.updated.filter (fun x => x ≠ f) ∧
    sysR.stack.dbpath = sys.stack.dbpath ∧
    sysR.stack.autosave = sys.stack.autosave ∧
    sysR.stack.persistDir = sys.stack.persistDir ∧
    sysR.stack.usertags = sys.stack.usertags ∧
    sysR.stack.userTagDir = sys.stack.userTagDir ∧
    fileContent sysR.fs (_persistPath sys.stack f none) =
      some (.prod ((lookupA sys.stack.lookup f).getD [])) := by
  unfold saveFlavors saveLoop at h
  cases hp : persist f (some (_persistPath sys.stack f none)) sys with
  | error e =>
      cases hmt : lookupA sys.stack.modtimes (_persistPath sys.stack f none) with
      | none => simp [hmt, hp] at h
      | some t =>
          cases hst : statMtime sys.fs (_persistPath sys.stack f none) with
          | none => simp [hmt, hst] at h
          | some m =>
              by_cases hlt : t < m
              · simp [hmt, hst, hlt, saveLoop] at h
              · simp [hmt, hst, hlt, hp] at h
  | ok sys1 =>
      have hres : sysR = clearUpdated none f sys1 := by
        cases hmt : lookupA sys.stack.modtimes (_persistPath sys.stack f none) with
        | none =>
            simp only [hmt, hp, saveLoop] at h
            simp at h
            exact h.symm
        | some t =>
            cases hst : statMtime sys.fs (_persistPath sys.stack f none) with
            | none => simp [hmt, hst] at h
            | some m =>
                by_cases hlt : t < m
                · simp [hmt, hst, hlt, saveLoop] at h
                · simp only [hmt, hst] at h
                  rw [if_neg hlt] at h
                  simp only [hp, saveLoop] at h
                  simp at h
                  exact h.symm
      by_cases hw : (_persistPath sys.stack f none) ∈ sys.fs.failWrites
      · rw [persist_fail _ _ _ hw] at hp
        exact absurd hp (by simp)
      · rw [persist_ok _ _ _ hw] at hp
        injection hp with hp1
        subst hres
        subst hp1
        refine ⟨rfl, rfl, rfl, rfl, rfl, rfl, rfl, ?_⟩
        simp [clearUpdated, fileContent, persistResult, lookupA_setA_self]

theorem clearUpdated_fs (d : Option String) (f : String) (sys : Sys) :
    (clearUpdated d f sys).fs = sys.fs := by
  unfold clearUpdated
  split <;> rfl

theorem clearUpdated_lookup (d : Option String) (f : String) (sys : Sys) :
    (clearUpdated d f sys).stack.lookup = sys.stack.lookup := by
  unfold clearUpdated
  split <;> rfl

theorem clearUpdated_modtimes (d : Option String) (f : String) (sys : Sys) :
    (clearUpdated d f sys).stack.modtimes = sys.stack.modtimes := by
  unfold clearUpdated
  split <;> rfl

theorem clearUpdated_persistDir (d : Option String) (f : String) (sys : Sys) :
    (clearUpdated d f sys).stack.persistDir = sys.stack.persistDir := by
  unfold clearUpdated
  split <;> rfl

theorem clearUpdated_dbpath (d : Option String) (f : String) (sys : Sys) :
    (clearUpdated d f sys).stack.dbpath = sys.stack.dbpath := by
  unfold clearUpdated
  split <;> rfl

theorem removeTail_spec (flavor : String) (sys : Sys)
    (lk1 : List (String × List (String × ProductFamily))) {b : Bool}
    {out : Sys}
    (h : (if (_flavorsUpdatedOne { sys.stack with lookup := lk1 } flavor).autosave then
            (match saveFlavors [flavor] none
                { sys with stack := _flavorsUpdatedOne { sys.stack with lookup := lk1 } flavor } with
             | Except.error e =>
                 (Except.error e : Except (PyError × Sys) (Bool × Sys))
             | Except.ok sys2 => Except.ok (true, sys2))
          else
            Except.ok (true, { sys with stack := _flavorsUpdatedOne { sys.stack with lookup := lk1 } flavor }))
         = Except.ok (b, out))
    (hpres : (lookupA lk1 flavor).isSome) :
    b = true ∧
    out.stack.lookup = lk1 ∧
    (sys.stack.autosave = false → flavor ∈ out.stack.updated) ∧
    (sys.stack.autosave = true →
      fileContent out.fs (_persistPath sys.stack flavor none) =
        some (.prod ((lookupA lk1 flavor).getD []))) := by
  have hax : (_flavorsUpdatedOne { sys.stack with lookup := lk1 } flavor).autosave
      = sys.stack.autosave := _flavorsUpdatedOne_autosave _ _
  split at h
  · rename_i ha
    cases hsf : saveFlavors [flavor] none
        { sys with stack := _flavorsUpdatedOne { sys.stack with lookup := lk1 } flavor } with
    | error e =>
        rw [hsf] at h
        exact absurd h (by simp)
    | ok sys2 =>
        rw [hsf] at h
        have hs := saveFlavors_single_ok hsf
        injection h with h'
        injection h' with hb hout
        subst hb
        subst hout
        refine ⟨rfl, ?_, ?_, ?_⟩
        · rw [hs.1]
          simp only [_flavorsUpdatedOne_lookup]
          exact ensureFlavor_present _ _ hpres
        · intro hfa
          rw [hax, hfa] at ha
          exact absurd ha (by simp)
        · intro _
          have hpd : ({ sys with stack := _flavorsUpdatedOne { sys.stack with lookup := lk1 } flavor } : Sys).stack.persistDir
              = sys.stack.persistDir := _flavorsUpdatedOne_persistDir _ _
          have hdb : ({ sys with stack := _flavorsUpdatedOne { sys.stack with lookup := lk1 } flavor } : Sys).stack.dbpath
              = sys.stack.dbpath := _flavorsUpdatedOne_dbpath _ _
          have hpath := _persistPath_congr flavor none hpd hdb
          rw [← hpath]
          rw [hs.2.2.2.2.2.2.2]
          have hl : ({ sys with stack := _flavorsUpdatedOne { sys.stack with lookup := lk1 } flavor } : Sys).stack.lookup
              = lk1 := by
            simp only [_flavorsUpdatedOne_lookup]
          rw [hl]
  · rename_i ha
    injection h with h'
    injection h' with hb hout
    subst hb
    subst hout
    refine ⟨rfl, ?_, ?_, ?_⟩
    · simp only [_flavorsUpdatedOne_lookup]
    · intro _
      exact _flavorsUpdatedOne_mem _ _
    · intro hta
      rw [hax, hta] at ha
      exact absurd rfl ha

/-- C4: every product with non-empty name, version, and flavor added via
`addProduct` is subsequently found: `getProduct(name, version, flavor)`
returns a record whose name, version, and flavor fields match the product
added, and `hasProduct(name, flavor, version)` returns true. -/
theorem C4_addProduct_then_get (sys sysR : Sys) (p : ProductRecord)
    (hwf : wfLookup sys.stack.lookup)
    (h : addProduct p sys = .ok sysR) :
    hasProduct sysR.stack p.name (some p.flavor) (some p.version) = true ∧
    ∃ rec, getProduct sysR.stack p.name p.version p.flavor = .ok rec ∧
      rec.name = p.name ∧ rec.version = p.version ∧ rec.flavor = p.flavor := by
  obtain ⟨fmap1, fam2, hlk, hver, hname⟩ :=
    addProductLookup_spec p sys.stack.lookup hwf
  simp only [addProduct] at h
  by_cases hu : p.name = "" ∨ p.version = "" ∨ p.flavor = ""
  · rw [if_pos hu] at h
    exact absurd h (by simp)
  · rw [if_neg hu] at h
    have hlookR : sysR.stack.lookup = addProductLookup p sys.stack.lookup := by
      split at h
      · have hs := saveFlavors_single_ok h
        rw [hs.1]
        simp only [_flavorsUpdatedOne_lookup]
        refine ensureFlavor_present _ _ ?_
        rw [hlk, lookupA_setA_self]
        rfl
      · injection h with h1
        rw [← h1]
        simp only [_flavorsUpdatedOne_lookup]
    have hpf : lookupA sysR.stack.lookup p.flavor = some (setA fmap1 p.name fam2) := by
      rw [hlookR, hlk]
      exact lookupA_setA_self _ _ _
    have hpn : lookupA (setA fmap1 p.name fam2) p.name = some fam2 :=
      lookupA_setA_self _ _ _
    have hg : getProduct sysR.stack p.name p.version p.flavor =
        .ok { name := fam2.name, version := p.version, flavor := p.flavor,
              dir := p.dir, tablefile := p.tablefile, table := p.table,
              tags := keysA (fam2.tags.filter fun q => q.2 = p.version),
              db := some sysR.stack.dbpath, prodStackSet := true } := by
      unfold getProduct
      simp [hpf, hpn, ProductFamily.getProduct, hver]
    constructor
    · unfold hasProduct hasProductIn
      simp [hpf, hpn, ProductFamily.hasVersion, hver]
    · exact ⟨_, hg, hname, rfl, rfl⟩

theorem C4_addProduct_then_get_witness :
    wfLookup sysC4.stack.lookup ∧ addProduct pC4 sysC4 = .ok sysC4R ∧
    (hasProduct sysC4R.stack pC4.name (some pC4.flavor) (some pC4.version) = true ∧
     ∃ rec, getProduct sysC4R.stack pC4.name pC4.version pC4.flavor = .ok rec ∧
       rec.name = pC4.name ∧ rec.version = pC4.version ∧
       rec.flavor = pC4.flavor) :=
  ⟨by decide, by decide,
   C4_addProduct_then_get sysC4 sysC4R pC4 (by decide) (by decide)⟩

/-- C7: `removeProduct` removes exactly the requested version (dropping the
whole family entry when it was the last one, so `getProductNames(flavor)` no
longer lists the name); it returns true exactly when the (flavor, product,
version) existed and false — not an error — otherwise, leaving the state
unchanged; on successful removal it marks the flavor dirty and, with
autosave enabled, saves that flavor's snapshot. -/
theorem C7_removeProduct_spec (sys sysR : Sys) (name flavor version : String)
    (b : Bool) (hwf : wfLookup sys.stack.lookup)
    (h : removeProduct name flavor version sys = .ok (b, sysR)) :
    (b = true ↔ hasProduct sys.stack name (some flavor) (some version) = true) ∧
    (b = false → sysR = sys) ∧
    (b = true →
      ∃ fmap fam, lookupA sys.stack.lookup flavor = some fmap ∧
        lookupA fmap name = some fam ∧
        sysR.stack.lookup = setA sys.stack.lookup flavor
          (if keysA (eraseA fam.versions version) = [] then eraseA fmap name
           else setA fmap name { fam with versions := eraseA fam.versions version }) ∧
        (keysA (eraseA fam.versions version) = [] →
          ∀ l, getProductNamesFor sysR.stack flavor = .ok l → name ∉ l) ∧
        (sys.stack.autosave = false → flavor ∈ sysR.stack.updated) ∧
        (sys.stack.autosave = true →
          fileContent sysR.fs (_persistPath sys.stack flavor none) =
            some (.prod
              (if keysA (eraseA fam.versions version) = [] then eraseA fmap name
               else setA fmap name { fam with versions := eraseA fam.versions version })))) := by
  unfold removeProduct at h
  cases h1 : lookupA sys.stack.lookup flavor with
  | none =>
      simp only [h1] at h
      injection h with h'
      injection h' with hb hsys
      subst hb
      subst hsys
      refine ⟨?_, fun _ => rfl, by simp⟩
      simp [hasProduct, hasProductIn, h1]
  | some fmap =>
      simp only [h1] at h
      cases h2 : lookupA fmap name with
      | none =>
          simp only [h2] at h
          injection h with h'
          injection h' with hb hsys
          subst hb
          subst hsys
          refine ⟨?_, fun _ => rfl, by simp⟩
          simp [hasProduct, hasProductIn, h1, h2]
      | some fam =>
          simp only [h2] at h
          by_cases hv : fam.hasVersion version = true
          · simp only [ProductFamily.removeVersion, hv, if_true] at h
            obtain ⟨hb, hlook, hdirty, hfile⟩ :=
              removeTail_spec flavor sys _ h
                (by rw [lookupA_setA_self]; rfl)
            subst hb
            simp only [ProductFamily.getVersions] at hlook hfile
            simp only [lookupA_setA_self, Option.getD_some] at hfile
            refine ⟨by simp [hasProduct, hasProductIn, h1, h2, hv],
                    by simp, fun _ => ?_⟩
            refine ⟨fmap, fam, rfl, h2, hlook, ?_, hdirty, hfile⟩
            intro hlast l hl
            unfold getProductNamesFor at hl
            simp only [hlook, lookupA_setA_self] at hl
            rw [if_pos hlast] at hl
            injection hl with hl1
            rw [← hl1]
            exact keysA_eraseA_not_mem
              ((hwf.2 (flavor, fmap) (lookupA_mem h1)).1)
          · unfold ProductFamily.removeVersion at h
            rw [if_neg hv] at h
            injection h with h'
            injection h' with hb hsys
            subst hb
            subst hsys
            refine ⟨?_, fun _ => rfl, by simp⟩
            simp [hasProduct, hasProductIn, h1, h2, hv]

theorem C7_removeProduct_spec_witness :
    wfLookup sysC7.stack.lookup ∧
    removeProduct "p" "f1" "1.0" sysC7 = .ok (true, sysC7R) ∧
    ((true = true ↔
        hasProduct sysC7.stack "p" (some "f1") (some "1.0") = true) ∧
     (true = false → sysC7R = sysC7) ∧
     (true = true →
       ∃ fmap fam, lookupA sysC7.stack.lookup "f1" = some fmap ∧
         lookupA fmap "p" = some fam ∧
         sysC7R.stack.lookup = setA sysC7.stack.lookup "f1"
           (if keysA (eraseA fam.versions "1.0") = [] then eraseA fmap "p"
            else setA fmap "p" { fam with versions := eraseA fam.versions "1.0" }) ∧
         (keysA (eraseA fam.versions "1.0") = [] →
           ∀ l, getProductNamesFor sysC7R.stack "f1" = .ok l → "p" ∉ l) ∧
         (sysC7.stack.autosave = false → "f1" ∈ sysC7R.stack.updated) ∧
         (sysC7.stack.autosave = true →
           fileContent sysC7R.fs (_persistPath sysC7.stack "f1" none) =
             some (.prod
               (if keysA (eraseA fam.versions "1.0") = [] then eraseA fmap "p"
                else setA fmap "p" { fam with versions := eraseA fam.versions "1.0" }))))) :=
  ⟨by decide, by decide,
   C7_removeProduct_spec sysC7 sysC7R "p" "f1" "1.0" true (by decide) (by decide)⟩

theorem C8_getProductNames_amended_witness :
    lookupA stC8.lookup "f1" =
      some [("zz", ⟨"zz", [], []⟩), ("aa", ⟨"aa", [], []⟩)] ∧
    getProductNamesFor stC8 "f1" =
      .ok (keysA [("zz", (⟨"zz", [], []⟩ : ProductFamily)),
                  ("aa", ⟨"aa", [], []⟩)]) :=
  ⟨by decide,
   (C8_getProductNames_amended stC8 "f1").2.2.2.2
     [("zz", ⟨"zz", [], []⟩), ("aa", ⟨"aa", [], []⟩)] (by decide)⟩

theorem saveLoop_protocol (dirArg : Option String) (sys0 : Sys)
    (fs : List String) :
    ∀ (acc : List String) (sys : Sys),
      sys.stack.persistDir = sys0.stack.persistDir →
      sys.stack.dbpath = sys0.stack.dbpath →
      sys.fs.failWrites = sys0.fs.failWrites →
      (∀ f ∈ fs,
        lookupA sys.stack.modtimes (_persistPath sys0.stack f dirArg) =
          lookupA sys0.stack.modtimes (_persistPath sys0.stack f dirArg) ∧
        statMtime sys.fs (_persistPath sys0.stack f dirArg) =
          statMtime sys0.fs (_persistPath sys0.stack f dirArg) ∧
        fileContent sys.fs (_persistPath sys0.stack f dirArg) =
          fileContent sys0.fs (_persistPath sys0.stack f dirArg) ∧
        lookupA sys.stack.lookup f = lookupA sys0.stack.lookup f) →
      (fs.map (fun g => _persistPath sys0.stack g dirArg)).Nodup →
      (∀ f ∈ fs, saveReady sys0 dirArg f = true) →
      ∃ sysF,
        saveLoop dirArg fs acc sys =
          .ok (acc ++ (fs.filter (fun g => staleFlavor sys0 dirArg g)).map
                (fun g => _persistPath sys0.stack g dirArg), sysF) ∧
        (∀ q, q ∉ fs.map (fun g => _persistPath sys0.stack g dirArg) →
          fileContent sysF.fs q = fileContent sys.fs q) ∧
        (∀ f ∈ fs, staleFlavor sys0 dirArg f = true →
          fileContent sysF.fs (_persistPath sys0.stack f dirArg) =
            fileContent sys0.fs (_persistPath sys0.stack f dirArg)) ∧
        (∀ f ∈ fs, staleFlavor sys0 dirArg f = false →
          fileContent sysF.fs (_persistPath sys0.stack f dirArg) =
            some (.prod ((lookupA sys0.stack.lookup f).getD []))) := by
  induction fs with
  | nil =>
      intro acc sys _ _ _ _ _ _
      exact ⟨sys, by simp [saveLoop], fun q _ => rfl, by simp, by simp⟩
  | cons f rest ih =>
      intro acc sys hpd hdb hfw hobs hnd hready
      obtain ⟨hmt, hst, hfc, hlk⟩ := hobs f (List.mem_cons_self f rest)
      have hpath : _persistPath sys.stack f dirArg =
          _persistPath sys0.stack f dirArg :=
        _persistPath_congr f dirArg hpd hdb
      rw [List.map_cons, List.nodup_cons] at hnd
      cases hstale : staleFlavor sys0 dirArg f with
      | true =>
          cases hmt0 : lookupA sys0.stack.modtimes
              (_persistPath sys0.stack f dirArg) with
          | none =>
              unfold staleFlavor at hstale
              simp only [hmt0] at hstale
              exact Bool.noConfusion hstale
          | some t =>
              cases hst0 : statMtime sys0.fs (_persistPath sys0.stack f dirArg) with
              | none =>
                  unfold staleFlavor at hstale
                  simp only [hmt0, hst0] at hstale
                  exact Bool.noConfusion hstale
              | some m =>
                  have hlt : t < m := by
                    unfold staleFlavor at hstale
                    simp only [hmt0, hst0] at hstale
                    exact of_decide_eq_true hstale
                  have hred : saveLoop dirArg (f :: rest) acc sys =
                      saveLoop dirArg rest
                        (acc ++ [_persistPath sys0.stack f dirArg]) sys := by
                    simp only [saveLoop, hpath, hmt, hmt0, hst, hst0]
                    rw [if_pos hlt]
                  obtain ⟨sysF, hrun, huntouched, hkeep, hwritten⟩ :=
                    ih (acc ++ [_persistPath sys0.stack f dirArg]) sys hpd hdb hfw
                      (fun g hg => hobs g (List.mem_cons_of_mem _ hg)) hnd.2
                      (fun g hg => hready g (List.mem_cons_of_mem _ hg))
                  refine ⟨sysF, ?_, ?_, ?_, ?_⟩
                  · rw [hred, hrun]
                    simp [hstale, List.append_assoc]
                  · intro q hq
                    rw [List.map_cons, List.mem_cons] at hq
                    push_neg at hq
                    exact huntouched q hq.2
                  · intro g hg hgs
                    rcases List.mem_cons.mp hg with rfl | hg
                    · rw [huntouched _ hnd.1, hfc]
                    · exact hkeep g hg hgs
                  · intro g hg hgs
                    rcases List.mem_cons.mp hg with rfl | hg
                    · rw [hstale] at hgs
                      exact absurd hgs (by simp)
                    · exact hwritten g hg hgs
      | false =>
          have hready_f := hready f (List.mem_cons_self f rest)
          have hwri : _persistPath sys0.stack f dirArg ∉ sys0.fs.failWrites := by
            unfold saveReady at hready_f
            rw [hstale] at hready_f
            simp only [Bool.false_or, Bool.and_eq_true] at hready_f
            simpa using hready_f.2
          have hwri' : _persistPath sys0.stack f dirArg ∉ sys.fs.failWrites := by
            rw [hfw]
            exact hwri
          have hred : saveLoop dirArg (f :: rest) acc sys =
              (match persist f (some (_persistPath sys0.stack f dirArg)) sys with
               | Except.error e => Except.error e
               | Except.ok sys1 =>
                   saveLoop dirArg rest acc (clearUpdated dirArg f sys1)) := by
            cases hmt0 : lookupA sys0.stack.modtimes
                (_persistPath sys0.stack f dirArg) with
            | none => simp only [saveLoop, hpath, hmt, hmt0]
            | some t =>
                have hsome : (statMtime sys0.fs
                    (_persistPath sys0.stack f dirArg)).isSome = true := by
                  unfold saveReady at hready_f
                  simp only [hmt0, Bool.and_eq_true] at hready_f
                  exact hready_f.1
                cases hst0 : statMtime sys0.fs (_persistPath sys0.stack f dirArg) with
                | none =>
                    rw [hst0] at hsome
                    exact absurd hsome (by simp)
                | some m =>
                    have hnlt : ¬ t < m := by
                      intro hlt
                      unfold staleFlavor at hstale
                      simp only [hmt0, hst0] at hstale
                      simp [hlt] at hstale
                    simp only [saveLoop, hpath, hmt, hmt0, hst, hst0]
                    rw [if_neg hnlt]
          have hred2 : saveLoop dirArg (f :: rest) acc sys =
              saveLoop dirArg rest acc
                (clearUpdated dirArg f
                  (persistResult f (_persistPath sys0.stack f dirArg) sys)) := by
            rw [hred, persist_ok f _ sys hwri']
          have hgne : ∀ g ∈ rest,
              _persistPath sys0.stack g dirArg ≠
                _persistPath sys0.stack f dirArg := by
            intro g hg he
            exact hnd.1 (he ▸ List.mem_map.mpr ⟨g, hg, rfl⟩)
          have hfg : ∀ g ∈ rest, f ≠ g := by
            intro g hg he
            exact hgne g hg (by rw [he])
          obtain ⟨sysF, hrun, huntouched, hkeep, hwritten⟩ :=
            ih acc
              (clearUpdated dirArg f
                (persistResult f (_persistPath sys0.stack f dirArg) sys))
              (by rw [clearUpdated_persistDir]; exact hpd)
              (by rw [clearUpdated_dbpath]; exact hdb)
              (by rw [clearUpdated_fs]; exact hfw)
              (by
                intro g hg
                obtain ⟨hgmt, hgst, hgfc, hglk⟩ :=
                  hobs g (List.mem_cons_of_mem _ hg)
                refine ⟨?_, ?_, ?_, ?_⟩
                · rw [clearUpdated_modtimes]
                  show lookupA (setA sys.stack.modtimes
                      (_persistPath sys0.stack f dirArg) sys.fs.clock)
                      (_persistPath sys0.stack g dirArg) = _
                  rw [lookupA_setA_ne _ _ _ _ (fun e => hgne g hg e.symm)]
                  exact hgmt
                · rw [clearUpdated_fs]
                  show ((lookupA (setA sys.fs.files
                      (_persistPath sys0.stack f dirArg) _)
                      (_persistPath sys0.stack g dirArg)).map FSFile.mtime) = _
                  rw [lookupA_setA_ne _ _ _ _ (fun e => hgne g hg e.symm)]
                  exact hgst
                · rw [clearUpdated_fs]
                  show ((lookupA (setA sys.fs.files
                      (_persistPath sys0.stack f dirArg) _)
                      (_persistPath sys0.stack g dirArg)).map FSFile.content) = _
                  rw [lookupA_setA_ne _ _ _ _ (fun e => hgne g hg e.symm)]
                  exact hgfc
                · rw [clearUpdated_lookup]
                  show lookupA (ensureFlavor sys.stack.lookup f) g = _
                  rw [lookupA_ensureFlavor_ne _ _ _ (hfg g hg)]
                  exact hglk)
              hnd.2
              (fun g hg => hready g (List.mem_cons_of_mem _ hg))
          refine ⟨sysF, ?_, ?_, ?_, ?_⟩
          · rw [hred2, hrun]
            simp [hstale]
          · intro q hq
            rw [List.map_cons, List.mem_cons] at hq
            push_neg at hq
            rw [huntouched q hq.2, clearUpdated_fs]
            show ((lookupA (setA sys.fs.files
                (_persistPath sys0.stack f dirArg) _) q).map FSFile.content) = _
            rw [lookupA_setA_ne _ _ _ _ (fun e => hq.1 e.symm)]
            rfl
          · intro g hg hgs
            rcases List.mem_cons.mp hg with rfl | hg
            · rw [hstale] at hgs
              exact absurd hgs (by simp)
            · exact hkeep g hg hgs
          · intro g hg hgs
            rcases List.mem_cons.mp hg with rfl | hg
            · rw [huntouched _ hnd.1, clearUpdated_fs]
              show ((lookupA (setA sys.fs.files
                  (_persistPath sys0.stack g dirArg)
                  ⟨.prod ((lookupA sys.stack.lookup g).getD []), sys.fs.clock⟩)
                  (_persistPath sys0.stack g dirArg)).map FSFile.content) = _
              rw [lookupA_setA_self, hlk]
              rfl
            · exact hwritten g hg hgs

/-- C1: `save` over a list of flavors skips every flavor whose
ledger-recorded time for its cache file is older than the file's current
on-disk modification time — that file's content stays unchanged — and
collects its file into the out-of-sync list; every other requested flavor's
snapshot is written; and after all requested flavors are processed, when any
were out of sync, save fails with the consistency error naming exactly the
out-of-sync files while the written flavors remain saved in the error-state
(no rollback); with none out of sync the same final state is returned
successfully. -/
theorem C1_save_out_of_sync_protocol (sys : Sys) (flavors : List String)
    (dirArg : Option String)
    (hnd : (flavors.map (fun g => _persistPath sys.stack g dirArg)).Nodup)
    (hready : ∀ f ∈ flavors, saveReady sys dirArg f = true) :
    ∃ sysF,
      (∀ f ∈ flavors, staleFlavor sys dirArg f = true →
        fileContent sysF.fs (_persistPath sys.stack f dirArg) =
          fileContent sys.fs (_persistPath sys.stack f dirArg)) ∧
      (∀ f ∈ flavors, staleFlavor sys dirArg f = false →
        fileContent sysF.fs (_persistPath sys.stack f dirArg) =
          some (.prod ((lookupA sys.stack.lookup f).getD []))) ∧
      (((flavors.filter (fun g => staleFlavor sys dirArg g)).map
          (fun g => _persistPath sys.stack g dirArg)) = [] →
        saveFlavors flavors dirArg sys = .ok sysF) ∧
      (((flavors.filter (fun g => staleFlavor sys dirArg g)).map
          (fun g => _persistPath sys.stack g dirArg)) ≠ [] →
        saveFlavors flavors dirArg sys =
          .error (.outOfSync
            ((flavors.filter (fun g => staleFlavor sys dirArg g)).map
              (fun g => _persistPath sys.stack g dirArg)), sysF)) := by
  obtain ⟨sysF, hrun, _, hkeep, hwritten⟩ :=
    saveLoop_protocol dirArg sys flavors [] sys rfl rfl rfl
      (fun f _ => ⟨rfl, rfl, rfl, rfl⟩) hnd hready
  refine ⟨sysF, hkeep, hwritten, ?_, ?_⟩
  · intro hempty
    unfold saveFlavors
    rw [hrun]
    simp [hempty]
  · intro hne
    unfold saveFlavors
    rw [hrun]
    simp [hne]

theorem C1_save_out_of_sync_protocol_witness :
    (List.map (fun g => _persistPath sysC1.stack g none) ["f1", "f2"]).Nodup ∧
    (∀ f ∈ ["f1", "f2"], saveReady sysC1 none f = true) ∧
    (∃ sysF,
      (∀ f ∈ ["f1", "f2"], staleFlavor sysC1 none f = true →
        fileContent sysF.fs (_persistPath sysC1.stack f none) =
          fileContent sysC1.fs (_persistPath sysC1.stack f none)) ∧
      (∀ f ∈ ["f1", "f2"], staleFlavor sysC1 none f = false →
        fileContent sysF.fs (_persistPath sysC1.stack f none) =
          some (.prod ((lookupA sysC1.stack.lookup f).getD []))) ∧
      (((["f1", "f2"].filter (fun g => staleFlavor sysC1 none g)).map
          (fun g => _persistPath sysC1.stack g none)) = [] →
        saveFlavors ["f1", "f2"] none sysC1 = .ok sysF) ∧
      (((["f1", "f2"].filter (fun g => staleFlavor sysC1 none g)).map
          (fun g => _persistPath sysC1.stack g none)) ≠ [] →
        saveFlavors ["f1", "f2"] none sysC1 =
          .error (.outOfSync
            ((["f1", "f2"].filter (fun g => staleFlavor sysC1 none g)).map
              (fun g => _persistPath sysC1.stack g none)), sysF))) :=
  ⟨by decide, by decide,
   C1_save_out_of_sync_protocol sysC1 ["f1", "f2"] none (by decide) (by decide)⟩

end Eups
